import Mathlib

/-
Shallow embedding of the aggregation functions of `src/Dashboard.js`
(chatbot-analytics-dashboard).  Records are the cleaned rows the component
processes; JavaScript objects used as accumulators are modelled as
insertion-ordered association lists (`Object.keys` enumerates string keys in
insertion order); JavaScript `Set` is an insertion-ordered duplicate-free
list; `Array.prototype.sort` is modelled by `List.insertionSort` (a stable
sort); number formatting with `toFixed` is modelled exactly on rationals of
the form k/2 or v/t·100, as half-up decimal rounding computed on naturals;
the IEEE value NaN produced by out-of-range indexing or 0/0 is `Option.none`.
-/

namespace Dashboard

/-- A JavaScript value as it can appear in the boolean-like CSV columns:
a native boolean, a string, or a missing field (`undefined`/`null`). -/
inductive JsVal where
  | jb : Bool → JsVal
  | jstr : String → JsVal
  | jmissing : JsVal
deriving DecidableEq, Repr

/-- One input record (one tagged question row), with the fields the
aggregation functions read.  String-typed columns are `Option String`
(`Option.none` = absent); boolean-like columns are `JsVal`. -/
structure Record where
  session_id : String
  question : Option String
  user_intent : Option String
  question_complexity : Option String
  learning_path : Option String
  has_follow_up_questions : JsVal
  has_difficulty : JsVal
  difficulty_type : Option String
deriving DecidableEq, Repr

/-- JavaScript truthiness of an optional string: present and non-empty. -/
def strTruthy : Option String → Bool
  | Option.none => false
  | Option.some s => s ≠ ""

/-- `item.user_intent || 'unknown'` (Dashboard.js lines 145, 210). -/
def intentOf (r : Record) : String :=
  match r.user_intent with
  | Option.none => "unknown"
  | Option.some s => if s = "" then "unknown" else s

/-- `item.learning_path || 'none'` (Dashboard.js line 183): the falsy
values (absent field, empty string) default to the sentinel. -/
def pathForDist (r : Record) : String :=
  match r.learning_path with
  | Option.none => "none"
  | Option.some s => if s = "" then "none" else s

/-- A whitespace character for `String.prototype.trim` (space, tab, line
feed, carriage return). -/
def jsWhitespace (c : Char) : Bool :=
  c = ' ' ∨ c = '\t' ∨ c = '\n' ∨ c = '\r'

/-- `String.prototype.trim`: strip leading and trailing whitespace,
modelled structurally on the character list. -/
def jsTrim (s : String) : String :=
  String.mk
    (((s.data.dropWhile jsWhitespace).reverse.dropWhile jsWhitespace).reverse)

/-- `item.learning_path ? item.learning_path.trim() : 'none'`
(Dashboard.js line 209). -/
def pathForCross (r : Record) : String :=
  match r.learning_path with
  | Option.none => "none"
  | Option.some s => if s = "" then "none" else jsTrim s

/-- The boolean-like truthiness rule of the source
(`v === true || v === 'True'`, Dashboard.js lines 252 and 286). -/
def boolLike (v : JsVal) : Bool :=
  v = JsVal.jb true ∨ v = JsVal.jstr "True"

/-- The sentinel test of the source: a path participates in the learning
path reports exactly when it differs from both literals (lines 184, 212). -/
def isRealPath (p : String) : Bool :=
  p ≠ "none" ∧ p ≠ "null"

/-- `counts[k] = (counts[k] || 0) + 1` on a JavaScript object, modelled as
an insertion-ordered association list. -/
def insCount {α : Type} [DecidableEq α] : List (α × ℕ) → α → List (α × ℕ)
  | [], k => [(k, 1)]
  | (k', n) :: t, k =>
      if k' = k then (k', n + 1) :: t else (k', n) :: insCount t k

/-- `Set.add` on a JavaScript `Set`, modelled as an insertion-ordered
duplicate-free list. -/
def insDedup {α : Type} [DecidableEq α] (ks : List α) (k : α) : List α :=
  if k ∈ ks then ks else ks ++ [k]

/-- Value of a key in an association list, defaulting to 0 (`counts[k] || 0`). -/
def lookupN {α : Type} [DecidableEq α] (cs : List (α × ℕ)) (k : α) : ℕ :=
  match cs with
  | [] => 0
  | (k', n) :: t => if k' = k then n else lookupN t k

/-- `sessionQuestions[item.session_id].push(item)` with on-demand creation
of the group (Dashboard.js lines 102-105), one step. -/
def addToGroups : List (String × List Record) → String → Record →
    List (String × List Record)
  | [], k, r => [(k, [r])]
  | (k', rs) :: t, k, r =>
      if k' = k then (k', rs ++ [r]) :: t else (k', rs) :: addToGroups t k r

/-- Grouping of the records by `session_id` (Dashboard.js lines 100-106,
also duplicated at lines 276-282). -/
def groupBySession (data : List Record) : List (String × List Record) :=
  data.foldl (fun gs r => addToGroups gs r.session_id r) []

/-- Half-up rounding of the rational v/t scaled to tenths of a percent:
the exact value of `(v/t*100).toFixed(1)` read as an integer count of
tenths.  Computed as ⌊1000·v/t + 1/2⌋ on naturals. -/
def pctTenths (v t : ℕ) : ℕ :=
  (2000 * v + t) / (2 * t)

/-- Rendering of a tenths count as a one-decimal string (`toFixed(1)`),
with `Option.none` (NaN) rendered as the string `"NaN"`. -/
def toFixed1t : Option ℕ → String
  | Option.none => "NaN"
  | Option.some t => toString (t / 10) ++ "." ++ toString (t % 10)

/-- Rendering of a hundredths count as a two-decimal string (`toFixed(2)`),
with `Option.none` (NaN) rendered as the string `"NaN"`. -/
def toFixed2h : Option ℕ → String
  | Option.none => "NaN"
  | Option.some h =>
      toString (h / 100) ++ "." ++
        (if h % 100 < 10 then "0" ++ toString (h % 100) else toString (h % 100))

/-- JavaScript array indexing with a possibly negative index:
out-of-range access yields `undefined`, modelled as `Option.none`. -/
def jsIdx (l : List ℕ) (i : Int) : Option ℕ :=
  if i < 0 then Option.none else l.get? i.toNat

/-- The median computation of `processSessionData` (Dashboard.js lines
126-131) on the ascending-sorted count list, in hundredths:
`middle = ⌊n/2⌋`; even length → `(sc[middle-1]+sc[middle])/2`, odd length
→ `sc[middle]`; an out-of-range access (empty input) propagates NaN. -/
def medianHundredths (sc : List ℕ) : Option ℕ :=
  let middle := sc.length / 2
  if sc.length % 2 = 0 then
    match jsIdx sc ((middle : Int) - 1), jsIdx sc (middle : Int) with
    | Option.some a, Option.some b => Option.some ((a + b) * 50)
    | _, _ => Option.none
  else
    match jsIdx sc (middle : Int) with
    | Option.some c => Option.some (c * 100)
    | Option.none => Option.none

/-- Output shape of `processSessionData`. -/
structure SessionReport where
  sessionsCount : ℕ
  questionsPerSession : List (String × ℕ)
  distributionData : List (ℕ × ℕ)
  medianQuestionsPerSession : String
deriving DecidableEq, Repr

/-- `processSessionData` (Dashboard.js lines 99-139). -/
def processSessionData (data : List Record) : SessionReport :=
  let groups := groupBySession data
  let questionsPerSession := groups.map (fun g => (g.1, g.2.length))
  let distribution :=
    questionsPerSession.foldl (fun d s => insCount d s.2) []
  let distributionData :=
    (distribution.map (fun p => (p.1, p.2))).insertionSort
      (fun a b => a.1 ≤ b.1)
  let sortedCounts :=
    (questionsPerSession.map (fun s => s.2)).insertionSort (· ≤ ·)
  { sessionsCount := groups.length
    questionsPerSession := questionsPerSession
    distributionData := distributionData
    medianQuestionsPerSession := toFixed2h (medianHundredths sortedCounts) }

/-- Output entry of the distribution reports: name, count, percentage
string. -/
structure PctEntry where
  name : String
  value : ℕ
  percentage : String
deriving DecidableEq, Repr

/-- `processLearningPathData` (Dashboard.js lines 180-200): counts per
non-sentinel path, percentage over the non-sentinel total, sorted
descending by count. -/
def processLearningPathData (data : List Record) : List PctEntry :=
  let counts := data.foldl
    (fun cs r =>
      let p := pathForDist r
      if isRealPath p then insCount cs p else cs) []
  let totalNonNull := (counts.map (fun p => p.2)).sum
  (counts.map (fun p =>
      { name := p.1
        value := p.2
        percentage := toFixed1t (Option.some (pctTenths p.2 totalNonNull)) }))
    |>.insertionSort (fun a b => b.value ≤ a.value)

/-- `pathIntents[path][intent] = (pathIntents[path][intent] || 0) + 1`
with on-demand creation of the inner object (Dashboard.js lines 215-219). -/
def bumpIntent : List (String × List (String × ℕ)) → String → String →
    List (String × List (String × ℕ))
  | [], p, i => [(p, [(i, 1)])]
  | (p', cs) :: t, p, i =>
      if p' = p then (p', insCount cs i) :: t
      else (p', cs) :: bumpIntent t p i

/-- Inner counts of a path in the crosstab accumulator
(`pathIntents[path]`), defaulting to the empty object. -/
def lookupCounts (pi : List (String × List (String × ℕ))) (p : String) :
    List (String × ℕ) :=
  match pi with
  | [] => []
  | (p', cs) :: t => if p' = p then cs else lookupCounts t p

/-- `Object.keys(intentCounts).reduce((a, b) => intentCounts[a] > intentCounts[b] ? a : b)`
(Dashboard.js lines 231-233).  JavaScript `reduce` without an initial value
throws on an empty array; that case is `Option.none` (never reached for a
valid path, which has at least one intent). -/
def jsReduceArgmax (cs : List (String × ℕ)) : Option String :=
  match cs.map (fun p => p.1) with
  | [] => Option.none
  | k :: t =>
      Option.some (t.foldl (fun a b => if lookupN cs a > lookupN cs b then a else b) k)

/-- Output row of `processPathIntentData`. -/
structure PathIntentRow where
  path : String
  total : ℕ
  dominantIntent : String
  dominantIntentCount : ℕ
  dominantIntentPercentage : String
deriving DecidableEq, Repr

/-- `processPathIntentData` (Dashboard.js lines 203-245): per non-sentinel
path, the intent→count mapping in insertion order, its total, the dominant
intent produced by the source's `reduce`, and its percentage of the path
total; rows sorted descending by total. -/
def processPathIntentData (data : List Record) : List PathIntentRow :=
  let pathIntents := data.foldl
    (fun pi r =>
      let p := pathForCross r
      if isRealPath p then bumpIntent pi p (intentOf r) else pi) []
  let validPaths := data.foldl
    (fun vs r =>
      let p := pathForCross r
      if isRealPath p then insDedup vs p else vs) []
  let rows := validPaths.map (fun p =>
    let intentCounts := lookupCounts pathIntents p
    let totalForPath := (intentCounts.map (fun c => c.2)).sum
    let dominantIntent := (jsReduceArgmax intentCounts).getD ""
    { path := p
      total := totalForPath
      dominantIntent := dominantIntent
      dominantIntentCount := lookupN intentCounts dominantIntent
      dominantIntentPercentage :=
        toFixed1t (Option.some
          (pctTenths (lookupN intentCounts dominantIntent) totalForPath)) })
  rows.insertionSort (fun a b => b.total ≤ a.total)

/-- Output entry of `processFollowUpData`: a bucket name and its count. -/
structure NamedCount where
  name : String
  value : ℕ
deriving DecidableEq, Repr

/-- `processFollowUpData` (Dashboard.js lines 248-263): every record falls
in exactly one of the two buckets, according to `boolLike`. -/
def processFollowUpData (data : List Record) : List NamedCount :=
  let counts := data.foldl
    (fun (c : ℕ × ℕ) r =>
      if boolLike r.has_follow_up_questions then (c.1 + 1, c.2)
      else (c.1, c.2 + 1)) (0, 0)
  [{ name := "With Follow-ups", value := counts.1 },
   { name := "Without Follow-ups", value := counts.2 }]

/-- The follow-up rate computed by the caller (Dashboard.js line 404):
`with / (with + without) * 100` with one decimal; a zero denominator gives
NaN (`Option.none`). -/
def followUpRateTenths (data : List Record) : Option ℕ :=
  let f := processFollowUpData data
  let w := ((f.get? 0).map (fun e => e.value)).getD 0
  let wo := ((f.get? 1).map (fun e => e.value)).getD 0
  if w + wo = 0 then Option.none else Option.some (pctTenths w (w + wo))

/-- Output shape of `processDifficultyData`. -/
structure DifficultyReport where
  typeCounts : List NamedCount
  sessionsWithDifficulties : ℕ
  totalSessions : ℕ
  difficultyRate : String
deriving DecidableEq, Repr

/-- `processDifficultyData` (Dashboard.js lines 266-302): per-type counts
over truthy `difficulty_type`, the set of sessions with a difficulty-flagged
record, and the rate of such sessions among all sessions. -/
def processDifficultyData (data : List Record) : DifficultyReport :=
  let typeCounts := data.foldl
    (fun cs r =>
      match r.difficulty_type with
      | Option.none => cs
      | Option.some s => if s = "" then cs else insCount cs s) []
  let sessionQuestions := groupBySession data
  let sessionsWithDifficulties := data.foldl
    (fun s r =>
      if boolLike r.has_difficulty then insDedup s r.session_id else s) []
  let rate :=
    if sessionQuestions.length = 0 then Option.none
    else Option.some
      (pctTenths sessionsWithDifficulties.length sessionQuestions.length)
  { typeCounts :=
      (typeCounts.map (fun p => { name := p.1, value := p.2 }))
        |>.insertionSort (fun a b => b.value ≤ a.value)
    sessionsWithDifficulties := sessionsWithDifficulties.length
    totalSessions := sessionQuestions.length
    difficultyRate := toFixed1t rate }

/-- One random draw of `getExampleQuestions` for one category:
`validQuestions[Math.floor(Math.random() * Math.min(validQuestions.length, 5))]?.question || 'No example available'`
guarded by `if (matching.length > 0)` (Dashboard.js lines 313-321 and
325-333).  The random draw is injected as a natural number `r`; the chosen
index is `r % min(len, 5)`, covering exactly the indices the source can
produce.  `Option.none` models the entry never being assigned. -/
def pickExample (data : List Record) (pred : Record → Bool) (r : ℕ) :
    Option String :=
  let matching := data.filter pred
  if matching.length > 0 then
    let validQuestions := matching.filter
      (fun q => strTruthy q.question ∧ (q.question.getD "").length > 10)
    let idx := r % min validQuestions.length 5
    Option.some
      (((validQuestions.get? idx).bind (fun q => q.question)).getD
        "No example available")
  else Option.none

/-- Output shape of `getExampleQuestions`: one optional entry per fixed
category (three intents, three complexity levels). -/
structure ExampleReport where
  problem_solving : Option String
  knowledge_seeking : Option String
  decision_making : Option String
  beginner : Option String
  intermediate : Option String
  advanced : Option String
deriving DecidableEq, Repr

/-- `getExampleQuestions` (Dashboard.js lines 305-336), with the six random
draws injected. -/
def getExampleQuestions (data : List Record)
    (r1 r2 r3 r4 r5 r6 : ℕ) : ExampleReport :=
  { problem_solving :=
      pickExample data (fun q => q.user_intent = Option.some "problem_solving") r1
    knowledge_seeking :=
      pickExample data (fun q => q.user_intent = Option.some "knowledge_seeking") r2
    decision_making :=
      pickExample data (fun q => q.user_intent = Option.some "decision_making") r3
    beginner :=
      pickExample data (fun q => q.question_complexity = Option.some "beginner") r4
    intermediate :=
      pickExample data (fun q => q.question_complexity = Option.some "intermediate") r5
    advanced :=
      pickExample data (fun q => q.question_complexity = Option.some "advanced") r6 }

/-! ### Spec-side definitions

These follow the wording of the specification (and, for corrected claims,
the amended wording), to be compared with the source-derived functions
above. -/

/-- Spec side: the per-session question counts (one count per session
group). -/
def sessionCounts (data : List Record) : List ℕ :=
  (groupBySession data).map (fun g => g.2.length)

/-- Spec side: the median of a count list per the specification: sort
ascending, take the exact middle value for an odd length, the average of
the two middle values for an even length. -/
def specMedianQ (counts : List ℕ) : ℚ :=
  let s := counts.mergeSort (fun a b => decide (a ≤ b))
  if s.length % 2 = 1 then (s.getD (s.length / 2) 0 : ℚ)
  else ((s.getD (s.length / 2 - 1) 0 : ℚ) + (s.getD (s.length / 2) 0 : ℚ)) / 2

/-- The maximum count value of an intent→count mapping. -/
def maxVal (cs : List (String × ℕ)) : ℕ :=
  (cs.map (fun p => p.2)).foldr max 0

/-- Claim side (C2 as stated): the first key of the mapping, in enumeration
order, whose count equals the maximum. -/
def firstMaxKey (cs : List (String × ℕ)) : Option String :=
  ((cs.filter (fun p => p.2 = maxVal cs)).head?).map (fun p => p.1)

/-- Amended claim side (C2): the last key of the mapping, in enumeration
order, whose count equals the maximum. -/
def lastMaxKey (cs : List (String × ℕ)) : Option String :=
  ((cs.filter (fun p => p.2 = maxVal cs)).getLast?).map (fun p => p.1)

/-- Spec side: the number of distinct session ids having at least one
record whose `has_difficulty` is truthy. -/
def specDiffSessionCount (data : List Record) : ℕ :=
  (((data.filter (fun r => boolLike r.has_difficulty)).map
      (fun r => r.session_id)).dedup).length

/-- Spec side: the total number of distinct session ids in the input. -/
def specSessionCount (data : List Record) : ℕ :=
  ((data.map (fun r => r.session_id)).dedup).length

/-- The crosstab accumulator of `processPathIntentData`, named so that
claims can refer to a path's intent→count mapping. -/
def crossCounts (data : List Record) : List (String × List (String × ℕ)) :=
  data.foldl
    (fun pi r =>
      let p := pathForCross r
      if isRealPath p then bumpIntent pi p (intentOf r) else pi) []

/-! ### Concrete inputs used by the claims' examples -/

/-- A record with only a session id; every other field is absent. -/
def sampleRec (sid : String) : Record :=
  { session_id := sid
    question := Option.none
    user_intent := Option.none
    question_complexity := Option.none
    learning_path := Option.none
    has_follow_up_questions := JsVal.jmissing
    has_difficulty := JsVal.jmissing
    difficulty_type := Option.none }

/-- Three sessions with 1, 2 and 3 questions: count sequence [1,2,3]. -/
def exMedianOdd : List Record :=
  [sampleRec "a", sampleRec "b", sampleRec "b",
   sampleRec "c", sampleRec "c", sampleRec "c"]

/-- Four sessions with 1, 2, 3 and 4 questions: count sequence [1,2,3,4]. -/
def exMedianEven : List Record :=
  exMedianOdd ++
    [sampleRec "d", sampleRec "d", sampleRec "d", sampleRec "d"]

/-- Two records on learning path "P" with tied intents "x" then "y". -/
def exCross : List Record :=
  [{ sampleRec "a" with
      learning_path := Option.some "P"
      user_intent := Option.some "x" },
   { sampleRec "a" with
      learning_path := Option.some "P"
      user_intent := Option.some "y" }]

/-- Records with learning paths "A", "none", "B", "B". -/
def exPaths : List Record :=
  [{ sampleRec "a" with learning_path := Option.some "A" },
   { sampleRec "a" with learning_path := Option.some "none" },
   { sampleRec "a" with learning_path := Option.some "B" },
   { sampleRec "a" with learning_path := Option.some "B" }]

/-- Three records with `has_follow_up_questions` = `true`, `"True"`, `false`. -/
def exFollow : List Record :=
  [{ sampleRec "a" with has_follow_up_questions := JsVal.jb true },
   { sampleRec "a" with has_follow_up_questions := JsVal.jstr "True" },
   { sampleRec "a" with has_follow_up_questions := JsVal.jb false }]

/-- Two sessions; only session "s1" has a difficulty-flagged record. -/
def exDiff : List Record :=
  [{ sampleRec "s1" with has_difficulty := JsVal.jb true },
   sampleRec "s1", sampleRec "s2"]

/-- One record matching intent "problem_solving" whose question is too
short to qualify; no record matches "knowledge_seeking" at all. -/
def exShortQ : List Record :=
  [{ sampleRec "a" with
      user_intent := Option.some "problem_solving"
      question := Option.some "short" }]

/-- One record whose learning path is the empty string. -/
def exEmptyPath : List Record :=
  [{ sampleRec "a" with learning_path := Option.some "" }]

/-- One record whose learning path is the case variant "None". -/
def exCasePath : List Record :=
  [{ sampleRec "a" with learning_path := Option.some "None" }]

/-- A three-record input over two sessions, for witnesses. -/
def exTwoSessions : List Record :=
  [sampleRec "a", sampleRec "b", sampleRec "a"]

/-! ### Order instances for the descending sorts of the reports -/

instance : IsTotal PctEntry (fun a b => b.value ≤ a.value) :=
  ⟨fun a b => le_total b.value a.value⟩

instance : IsTrans PctEntry (fun a b => b.value ≤ a.value) :=
  ⟨fun _ _ _ hab hbc => le_trans hbc hab⟩

instance : IsTotal PathIntentRow (fun a b => b.total ≤ a.total) :=
  ⟨fun a b => le_total b.total a.total⟩

instance : IsTrans PathIntentRow (fun a b => b.total ≤ a.total) :=
  ⟨fun _ _ _ hab hbc => le_trans hbc hab⟩

/-! ### Lemmas on the association-list and set primitives -/

theorem insCount_sum {α : Type} [DecidableEq α] (cs : List (α × ℕ)) (k : α) :
    ((insCount cs k).map (fun p => p.2)).sum = (cs.map (fun p => p.2)).sum + 1 := by
  induction cs with
  | nil => simp [insCount]
  | cons p t ih =>
      obtain ⟨a, n⟩ := p
      simp only [insCount]
      split
      · simp
        omega
      · simp [ih]
        omega

theorem insCount_keys {α : Type} [DecidableEq α] (cs : List (α × ℕ)) (k : α) :
    (insCount cs k).map (fun p => p.1) =
      insDedup (cs.map (fun p => p.1)) k := by
  induction cs with
  | nil => simp [insCount, insDedup]
  | cons p t ih =>
      obtain ⟨a, n⟩ := p
      simp only [insCount, insDedup] at *
      by_cases h : a = k
      · subst h
        simp
      · simp only [if_neg h, List.map_cons, ih]
        by_cases hk : k ∈ t.map (fun p => p.1)
        · simp [hk, Ne.symm h]
        · simp [hk, Ne.symm h]

theorem lookupN_insCount {α : Type} [DecidableEq α]
    (cs : List (α × ℕ)) (k j : α) :
    lookupN (insCount cs k) j = lookupN cs j + (if j = k then 1 else 0) := by
  induction cs with
  | nil =>
      simp only [insCount, lookupN]
      by_cases h : j = k
      · subst h
        simp
      · rw [if_neg (Ne.symm h), if_neg h]
  | cons p t ih =>
      obtain ⟨a, n⟩ := p
      simp only [insCount]
      by_cases h : a = k
      · subst h
        simp only [if_pos rfl, lookupN]
        by_cases hj : a = j
        · subst hj
          simp
        · rw [if_neg hj, if_neg hj, if_neg (Ne.symm hj), Nat.add_zero]
      · simp only [if_neg h, lookupN]
        by_cases hj : a = j
        · subst hj
          rw [if_pos rfl, if_pos rfl, if_neg h, Nat.add_zero]
        · rw [if_neg hj, if_neg hj, ih]

theorem lookupN_eq_of_mem {α : Type} [DecidableEq α]
    {cs : List (α × ℕ)} (hn : (cs.map (fun p => p.1)).Nodup)
    {p : α × ℕ} (hp : p ∈ cs) : lookupN cs p.1 = p.2 := by
  induction cs with
  | nil => simp at hp
  | cons q t ih =>
      obtain ⟨a, n⟩ := q
      simp only [List.map_cons, List.nodup_cons] at hn
      rcases List.mem_cons.mp hp with h | h
      · subst h
        simp [lookupN]
      · have ha : ¬ a = p.1 := by
          intro hh
          exact hn.1 (hh ▸ (List.mem_map.mpr ⟨p, h, rfl⟩))
        simp only [lookupN, if_neg ha]
        exact ih hn.2 h

theorem mem_insDedup {α : Type} [DecidableEq α] (s : List α) (k x : α) :
    x ∈ insDedup s k ↔ x ∈ s ∨ x = k := by
  unfold insDedup
  split
  · constructor
    · exact fun h => Or.inl h
    · rintro (h | rfl)
      · exact h
      · assumption
  · simp

theorem nodup_insDedup {α : Type} [DecidableEq α] (s : List α) (k : α)
    (h : s.Nodup) : (insDedup s k).Nodup := by
  unfold insDedup
  split
  · exact h
  · simp_all [List.nodup_append]

theorem mem_foldl_insDedup {α : Type} [DecidableEq α]
    (l : List α) (s : List α) (x : α) :
    x ∈ l.foldl insDedup s ↔ x ∈ s ∨ x ∈ l := by
  induction l generalizing s with
  | nil => simp
  | cons a t ih =>
      simp only [List.foldl_cons, ih, mem_insDedup, List.mem_cons]
      tauto

theorem nodup_foldl_insDedup {α : Type} [DecidableEq α]
    (l : List α) (s : List α) (h : s.Nodup) :
    (l.foldl insDedup s).Nodup := by
  induction l generalizing s with
  | nil => exact h
  | cons a t ih => exact ih _ (nodup_insDedup _ _ h)

theorem length_eq_dedup_length {α : Type} [DecidableEq α]
    {l₁ l₂ : List α} (h₁ : l₁.Nodup) (h : ∀ x, x ∈ l₁ ↔ x ∈ l₂) :
    l₁.length = l₂.dedup.length := by
  have hp : l₁.Perm l₂.dedup := by
    rw [List.perm_ext_iff_of_nodup h₁ (List.nodup_dedup l₂)]
    intro a
    rw [h a, List.mem_dedup]
  exact hp.length_eq

/-! ### Lemmas on session grouping -/

theorem addToGroups_sum (gs : List (String × List Record)) (k : String)
    (r : Record) :
    ((addToGroups gs k r).map (fun g => g.2.length)).sum =
      (gs.map (fun g => g.2.length)).sum + 1 := by
  induction gs with
  | nil => simp [addToGroups]
  | cons p t ih =>
      obtain ⟨a, rs⟩ := p
      simp only [addToGroups]
      split
      · simp
        omega
      · simp [ih]
        omega

theorem addToGroups_keys (gs : List (String × List Record)) (k : String)
    (r : Record) :
    (addToGroups gs k r).map (fun g => g.1) =
      insDedup (gs.map (fun g => g.1)) k := by
  induction gs with
  | nil => simp [addToGroups, insDedup]
  | cons p t ih =>
      obtain ⟨a, rs⟩ := p
      simp only [addToGroups, insDedup] at *
      by_cases h : a = k
      · subst h
        simp
      · simp only [if_neg h, List.map_cons, ih]
        by_cases hk : k ∈ t.map (fun g => g.1)
        · simp [hk, Ne.symm h]
        · simp [hk, Ne.symm h]

theorem addToGroups_mem_self (gs : List (String × List Record)) (k : String)
    (r : Record) :
    ∃ g, g ∈ addToGroups gs k r ∧ g.1 = k ∧ r ∈ g.2 := by
  induction gs with
  | nil => exact ⟨(k, [r]), by simp [addToGroups]⟩
  | cons p t ih =>
      obtain ⟨a, rs⟩ := p
      simp only [addToGroups]
      by_cases h : a = k
      · subst h
        exact ⟨(a, rs ++ [r]), by simp⟩
      · obtain ⟨g, hg, hk, hr⟩ := ih
        exact ⟨g, by simp [if_neg h, hg], hk, hr⟩

theorem addToGroups_mem_mono (gs : List (String × List Record)) (k : String)
    (r x : Record) (h : ∃ g, g ∈ gs ∧ x ∈ g.2) :
    ∃ g, g ∈ addToGroups gs k r ∧ x ∈ g.2 := by
  induction gs with
  | nil => simp at h
  | cons p t ih =>
      obtain ⟨a, rs⟩ := p
      obtain ⟨g, hg, hx⟩ := h
      simp only [addToGroups]
      by_cases hk : a = k
      · subst hk
        rcases List.mem_cons.mp hg with hge | hgt
        · subst hge
          exact ⟨(a, rs ++ [r]), by simp, by simp [List.mem_append.mpr (Or.inl hx)]⟩
        · exact ⟨g, by simp [hgt], hx⟩
      · rcases List.mem_cons.mp hg with hge | hgt
        · subst hge
          exact ⟨(a, rs), by simp [if_neg hk], hx⟩
        · obtain ⟨g', hg', hx'⟩ := ih ⟨g, hgt, hx⟩
          exact ⟨g', by simp [if_neg hk, hg'], hx'⟩

theorem addToGroups_sid (gs : List (String × List Record)) (r : Record)
    (h : ∀ g, g ∈ gs → ∀ x, x ∈ g.2 → x.session_id = g.1) :
    ∀ g, g ∈ addToGroups gs r.session_id r → ∀ x, x ∈ g.2 →
      x.session_id = g.1 := by
  induction gs with
  | nil =>
      intro g hg x hx
      simp [addToGroups] at hg
      subst hg
      simp at hx
      subst hx
      rfl
  | cons p t ih =>
      obtain ⟨a, rs⟩ := p
      intro g hg x hx
      simp only [addToGroups] at hg
      by_cases hk : a = r.session_id
      · rw [if_pos hk] at hg
        rcases List.mem_cons.mp hg with hge | hgt
        · subst hge
          rcases List.mem_append.mp hx with hx' | hx'
          · exact h (a, rs) (List.mem_cons_self _ _) x hx'
          · simp at hx'
            subst hx'
            exact hk.symm
        · exact h g (List.mem_cons_of_mem _ hgt) x hx
      · rw [if_neg hk] at hg
        rcases List.mem_cons.mp hg with hge | hgt
        · subst hge
          exact h (a, rs) (List.mem_cons_self _ _) x hx
        · exact ih (fun g' hg' => h g' (List.mem_cons_of_mem _ hg')) g hgt x hx

theorem groupBySession_sum_aux (data : List Record)
    (gs : List (String × List Record)) :
    (((data.foldl (fun gs r => addToGroups gs r.session_id r) gs)).map
        (fun g => g.2.length)).sum =
      (gs.map (fun g => g.2.length)).sum + data.length := by
  induction data generalizing gs with
  | nil => simp
  | cons r t ih =>
      simp only [List.foldl_cons, ih, addToGroups_sum, List.length_cons]
      omega

theorem groupBySession_sum (data : List Record) :
    ((groupBySession data).map (fun g => g.2.length)).sum = data.length := by
  simpa using groupBySession_sum_aux data []

theorem groupBySession_keys_aux (data : List Record)
    (gs : List (String × List Record)) :
    ((data.foldl (fun gs r => addToGroups gs r.session_id r) gs)).map
        (fun g => g.1) =
      (data.map (fun r => r.session_id)).foldl insDedup
        (gs.map (fun g => g.1)) := by
  induction data generalizing gs with
  | nil => simp
  | cons r t ih => simp [ih, addToGroups_keys]

theorem groupBySession_keys (data : List Record) :
    (groupBySession data).map (fun g => g.1) =
      (data.map (fun r => r.session_id)).foldl insDedup [] := by
  simpa using groupBySession_keys_aux data []

theorem groupBySession_keys_nodup (data : List Record) :
    ((groupBySession data).map (fun g => g.1)).Nodup := by
  rw [groupBySession_keys]
  exact nodup_foldl_insDedup _ [] (by simp)

theorem groupBySession_sid (data : List Record) :
    ∀ g, g ∈ groupBySession data → ∀ x, x ∈ g.2 →
      x.session_id = g.1 := by
  have key : ∀ (l : List Record) (gs : List (String × List Record)),
      (∀ g, g ∈ gs → ∀ x, x ∈ g.2 → x.session_id = g.1) →
      ∀ g, g ∈ l.foldl (fun gs r => addToGroups gs r.session_id r) gs →
        ∀ x, x ∈ g.2 → x.session_id = g.1 := by
    intro l
    induction l with
    | nil => intro gs h; exact h
    | cons r t ih =>
        intro gs h
        exact ih _ (addToGroups_sid gs r h)
  exact key data [] (by simp)

theorem groupBySession_mem_mono (data : List Record)
    (gs : List (String × List Record)) (x : Record)
    (h : ∃ g, g ∈ gs ∧ x ∈ g.2) :
    ∃ g, g ∈ data.foldl (fun gs r => addToGroups gs r.session_id r) gs ∧
      x ∈ g.2 := by
  induction data generalizing gs with
  | nil => exact h
  | cons r t ih => exact ih _ (addToGroups_mem_mono gs r.session_id r x h)

theorem groupBySession_mem (data : List Record) (x : Record)
    (hx : x ∈ data) :
    ∃ g, g ∈ groupBySession data ∧ x ∈ g.2 := by
  have key : ∀ (l : List Record) (gs : List (String × List Record)),
      x ∈ l →
      ∃ g, g ∈ l.foldl (fun gs r => addToGroups gs r.session_id r) gs ∧
        x ∈ g.2 := by
    intro l
    induction l with
    | nil => intro gs h; simp at h
    | cons r t ih =>
        intro gs h
        rcases List.mem_cons.mp h with rfl | ht
        · obtain ⟨g, hg, _, hxr⟩ := addToGroups_mem_self gs x.session_id x
          exact groupBySession_mem_mono t _ x ⟨g, hg, hxr⟩
        · exact ih _ ht
  exact key data [] hx

theorem groupBySession_unique (data : List Record) (x : Record)
    {g g' : String × List Record}
    (hg : g ∈ groupBySession data) (hg' : g' ∈ groupBySession data)
    (hxg : x ∈ g.2) (hxg' : x ∈ g'.2) : g' = g := by
  have h1 : x.session_id = g.1 := groupBySession_sid data g hg x hxg
  have h2 : x.session_id = g'.1 := groupBySession_sid data g' hg' x hxg'
  exact List.inj_on_of_nodup_map (groupBySession_keys_nodup data) hg' hg
    (h2 ▸ h1)

/-! ### Claim C9 -/

/-- Claim C9: the session groups built by Session Analysis partition the
input: the sum of per-session question counts over all groups equals the
total record count, and every record belongs to exactly one session
group. -/
theorem claim_C9 (data : List Record) :
    ((groupBySession data).map (fun g => g.2.length)).sum = data.length ∧
    ((processSessionData data).questionsPerSession.map (fun s => s.2)).sum
      = data.length ∧
    ∀ r, r ∈ data →
      ∃ g, g ∈ groupBySession data ∧ r ∈ g.2 ∧
        ∀ g', g' ∈ groupBySession data → r ∈ g'.2 → g' = g := by
  refine ⟨groupBySession_sum data, ?_, ?_⟩
  · have hq : (processSessionData data).questionsPerSession
        = (groupBySession data).map (fun g => (g.1, g.2.length)) := rfl
    rw [hq, List.map_map]
    simpa [Function.comp] using groupBySession_sum data
  · intro r hr
    obtain ⟨g, hg, hrg⟩ := groupBySession_mem data r hr
    exact ⟨g, hg, hrg, fun g' hg' hrg' =>
      groupBySession_unique data r hg hg' hrg hrg'⟩

/-- Witness for C9 at a concrete three-record, two-session input. -/
theorem claim_C9_witness :
    ∃ g, g ∈ groupBySession exTwoSessions ∧ sampleRec "a" ∈ g.2 ∧
      ∀ g', g' ∈ groupBySession exTwoSessions → sampleRec "a" ∈ g'.2 →
        g' = g :=
  (claim_C9 exTwoSessions).2.2 (sampleRec "a") (by decide)

/-! ### Lemmas on the follow-up buckets -/

theorem followFold_eq (data : List Record) (c : ℕ × ℕ) :
    data.foldl
      (fun (c : ℕ × ℕ) r =>
        if boolLike r.has_follow_up_questions then (c.1 + 1, c.2)
        else (c.1, c.2 + 1)) c =
    (c.1 + data.countP (fun r => boolLike r.has_follow_up_questions),
     c.2 + data.countP (fun r => !boolLike r.has_follow_up_questions)) := by
  induction data generalizing c with
  | nil => simp
  | cons r t ih =>
      by_cases h : boolLike r.has_follow_up_questions = true
      · simp [h, ih, List.countP_cons]
        omega
      · simp [h, ih, List.countP_cons]
        omega

theorem countP_not_split (l : List Record) (p : Record → Bool) :
    l.countP p + l.countP (fun r => !p r) = l.length := by
  induction l with
  | nil => simp
  | cons r t ih =>
      simp only [List.countP_cons, List.length_cons]
      cases hpr : p r with
      | true =>
          simp only [if_true, Bool.not_true, Bool.false_eq_true, if_false]
          omega
      | false =>
          simp only [Bool.false_eq_true, if_false, Bool.not_false, if_true]
          omega

/-! ### Claim C10 -/

/-- Claim C10: on every input, Follow-up Analysis returns exactly two
entries, named "With Follow-ups" then "Without Follow-ups" in that order,
and their values sum to the number of input records. -/
theorem claim_C10 (data : List Record) :
    (processFollowUpData data).length = 2 ∧
    (processFollowUpData data).map (fun e => e.name) =
      ["With Follow-ups", "Without Follow-ups"] ∧
    ((processFollowUpData data).map (fun e => e.value)).sum = data.length := by
  refine ⟨rfl, rfl, ?_⟩
  have hp : processFollowUpData data =
      [{ name := "With Follow-ups",
         value := data.countP (fun r => boolLike r.has_follow_up_questions) },
       { name := "Without Follow-ups",
         value := data.countP (fun r => !boolLike r.has_follow_up_questions) }] := by
    unfold processFollowUpData
    rw [followFold_eq]
    simp
  rw [hp]
  have hs := countP_not_split data (fun r => boolLike r.has_follow_up_questions)
  simp only [List.map_cons, List.map_nil, List.sum_cons, List.sum_nil]
  omega

/-! ### Claim C4 -/

/-- Claim C4: Follow-up Analysis counts a record as "with follow-up"
exactly when `has_follow_up_questions` is the boolean `true` or the string
`"True"` (`boolLike`); the rate is with/(with+without)·100 with one
decimal; for records `true`, `"True"`, `false` the rate renders as
"66.7". -/
theorem claim_C4 (data : List Record) :
    processFollowUpData data =
      [{ name := "With Follow-ups",
         value := data.countP (fun r => boolLike r.has_follow_up_questions) },
       { name := "Without Follow-ups",
         value := data.countP (fun r => !boolLike r.has_follow_up_questions) }] ∧
    (data ≠ [] →
      followUpRateTenths data = Option.some
        (pctTenths (data.countP (fun r => boolLike r.has_follow_up_questions))
          (data.countP (fun r => boolLike r.has_follow_up_questions) +
           data.countP (fun r => !boolLike r.has_follow_up_questions)))) ∧
    toFixed1t (followUpRateTenths exFollow) = "66.7" := by
  have hp : processFollowUpData data =
      [{ name := "With Follow-ups",
         value := data.countP (fun r => boolLike r.has_follow_up_questions) },
       { name := "Without Follow-ups",
         value := data.countP (fun r => !boolLike r.has_follow_up_questions) }] := by
    unfold processFollowUpData
    rw [followFold_eq]
    simp
  refine ⟨hp, ?_, by decide⟩
  intro hne
  have hlen : data.countP (fun r => boolLike r.has_follow_up_questions) +
      data.countP (fun r => !boolLike r.has_follow_up_questions) =
      data.length :=
    countP_not_split data (fun r => boolLike r.has_follow_up_questions)
  have hpos : data.length ≠ 0 := by
    simpa [List.length_eq_zero] using hne
  unfold followUpRateTenths
  rw [hp]
  simp only [List.get?]
  simp only [Option.map, Option.getD]
  rw [if_neg (by omega)]

/-- Witness for C4's rate clause at the three-record example. -/
theorem claim_C4_witness :
    followUpRateTenths exFollow = Option.some
      (pctTenths (exFollow.countP (fun r => boolLike r.has_follow_up_questions))
        (exFollow.countP (fun r => boolLike r.has_follow_up_questions) +
         exFollow.countP (fun r => !boolLike r.has_follow_up_questions))) :=
  (claim_C4 exFollow).2.1 (by decide)

/-! ### Claim C3 -/

theorem lpFold_sum (data : List Record) (cs : List (String × ℕ)) :
    ((data.foldl
        (fun cs r =>
          let p := pathForDist r
          if isRealPath p then insCount cs p else cs) cs).map
      (fun p => p.2)).sum =
    (cs.map (fun p => p.2)).sum +
      data.countP (fun r => isRealPath (pathForDist r)) := by
  induction data generalizing cs with
  | nil => simp
  | cons r t ih =>
      simp only [List.foldl_cons, List.countP_cons]
      by_cases h : isRealPath (pathForDist r) = true
      · simp only [h, if_true, ih, insCount_sum]
        omega
      · simp only [h, Bool.false_eq_true, if_false, ih]
        omega

/-- Claim C3: Learning Path Distribution computes each non-sentinel path's
percentage with denominator the number of non-sentinel records (not the
dataset size), sorts descending by count, and on paths ["A","none","B","B"]
gives path "B" the percentage 66.7. -/
theorem claim_C3 (data : List Record) :
    (∀ e, e ∈ processLearningPathData data →
      e.percentage = toFixed1t (Option.some (pctTenths e.value
        (data.countP (fun r => isRealPath (pathForDist r)))))) ∧
    List.Sorted (fun a b => b.value ≤ a.value)
      (processLearningPathData data) ∧
    processLearningPathData exPaths =
      [{ name := "B", value := 2, percentage := "66.7" },
       { name := "A", value := 1, percentage := "33.3" }] := by
  refine ⟨?_, ?_, by decide⟩
  · intro e he
    simp only [processLearningPathData] at he
    have he' := ((List.perm_insertionSort _ _).mem_iff).mp he
    obtain ⟨p, hp, rfl⟩ := List.mem_map.mp he'
    have hsum := lpFold_sum data []
    simp only [List.map_nil, List.sum_nil, Nat.zero_add] at hsum
    simp [hsum]
  · exact List.sorted_insertionSort _ _

/-- Witness for C3's percentage clause at the "B" entry of the example. -/
theorem claim_C3_witness :
    ({ name := "B", value := 2, percentage := "66.7" } : PctEntry).percentage =
      toFixed1t (Option.some (pctTenths
        ({ name := "B", value := 2, percentage := "66.7" } : PctEntry).value
        (exPaths.countP (fun r => isRealPath (pathForDist r))))) :=
  (claim_C3 exPaths).1 _ (by decide)

/-! ### Claim C6 -/

/-- Claim C6, evaluated at the failing input: on the zero-record input the
source returns session count 0 but renders the median as the string "NaN"
(the NaN from `(undefined + undefined)/2` flows through `toFixed(2)` into
the display string), instead of reporting the median as explicitly
undefined/absent. -/
theorem claim_C6_empty_input :
    (processSessionData []).sessionsCount = 0 ∧
    medianHundredths [] = Option.none ∧
    (processSessionData []).medianQuestionsPerSession = "NaN" := by
  decide

/-! ### Claim C5 -/

theorem diffFold_eq (data : List Record) (s : List String) :
    data.foldl
      (fun s r =>
        if boolLike r.has_difficulty then insDedup s r.session_id else s) s =
    ((data.filter (fun r => boolLike r.has_difficulty)).map
      (fun r => r.session_id)).foldl insDedup s := by
  induction data generalizing s with
  | nil => simp
  | cons r t ih =>
      by_cases h : boolLike r.has_difficulty = true
      · simp [h, ih]
      · simp [h, ih]

theorem foldl_insDedup_length {α : Type} [DecidableEq α] (l : List α) :
    (l.foldl insDedup []).length = l.dedup.length :=
  length_eq_dedup_length (nodup_foldl_insDedup l [] (by simp))
    (fun x => by simpa using mem_foldl_insDedup l [] x)

theorem groupBySession_length (data : List Record) :
    (groupBySession data).length = specSessionCount data := by
  have h1 : (groupBySession data).length =
      ((groupBySession data).map (fun g => g.1)).length := by
    rw [List.length_map]
  rw [h1, groupBySession_keys, specSessionCount, foldl_insDedup_length]

theorem groupBySession_ne_nil (data : List Record) (h : data ≠ []) :
    (groupBySession data).length ≠ 0 := by
  intro h0
  apply h
  have hnil : groupBySession data = [] := List.length_eq_zero.mp h0
  have hsum := groupBySession_sum data
  rw [hnil] at hsum
  simpa [List.length_eq_zero] using hsum.symm

/-- Claim C5: for a nonempty input, the Difficulty Analysis rate equals
the number of distinct session ids with at least one truthy
`has_difficulty` record, divided by the total session count, times 100,
with one decimal; with 2 sessions of which one is difficulty-flagged the
rate is "50.0". -/
theorem claim_C5 (data : List Record) (h : data ≠ []) :
    (processDifficultyData data).sessionsWithDifficulties =
      specDiffSessionCount data ∧
    (processDifficultyData data).totalSessions = specSessionCount data ∧
    (processDifficultyData data).difficultyRate =
      toFixed1t (Option.some
        (pctTenths (specDiffSessionCount data) (specSessionCount data))) ∧
    (processDifficultyData exDiff).difficultyRate = "50.0" := by
  have hswd : (processDifficultyData data).sessionsWithDifficulties =
      (data.foldl
        (fun s r =>
          if boolLike r.has_difficulty then insDedup s r.session_id else s)
        []).length := rfl
  have hcount : (data.foldl
      (fun s r =>
        if boolLike r.has_difficulty then insDedup s r.session_id else s)
      []).length = specDiffSessionCount data := by
    rw [diffFold_eq, foldl_insDedup_length]
    rfl
  have htot : (processDifficultyData data).totalSessions =
      specSessionCount data := groupBySession_length data
  have hne := groupBySession_ne_nil data h
  refine ⟨hswd.trans hcount, htot, ?_, by decide⟩
  have hrate : (processDifficultyData data).difficultyRate =
      toFixed1t
        (if (groupBySession data).length = 0 then Option.none
         else Option.some
          (pctTenths
            (data.foldl
              (fun s r =>
                if boolLike r.has_difficulty then insDedup s r.session_id
                else s) []).length
            (groupBySession data).length)) := rfl
  rw [hrate, if_neg hne, hcount, groupBySession_length]

/-- Witness for C5 at the two-session example input. -/
theorem claim_C5_witness :
    (processDifficultyData exDiff).sessionsWithDifficulties =
      specDiffSessionCount exDiff ∧
    (processDifficultyData exDiff).totalSessions = specSessionCount exDiff ∧
    (processDifficultyData exDiff).difficultyRate =
      toFixed1t (Option.some
        (pctTenths (specDiffSessionCount exDiff) (specSessionCount exDiff))) ∧
    (processDifficultyData exDiff).difficultyRate = "50.0" :=
  claim_C5 exDiff (by decide)

/-! ### Claim C1 -/

theorem insertionSort_eq_mergeSort_nat (l : List ℕ) :
    l.insertionSort (· ≤ ·) = l.mergeSort (fun a b => decide (a ≤ b)) := by
  apply List.eq_of_perm_of_sorted (r := (fun a b : ℕ => a ≤ b))
  · exact (List.perm_insertionSort _ l).trans (List.mergeSort_perm l _).symm
  · exact List.sorted_insertionSort _ l
  · have h := @List.sorted_mergeSort ℕ (fun a b : ℕ => decide (a ≤ b))
      (fun a b c hab hbc => by
        simp only [decide_eq_true_eq] at *
        omega)
      (fun a b => by
        simp only [Bool.or_eq_true, decide_eq_true_eq]
        omega) l
    exact List.Pairwise.imp (fun hab => by simpa using hab) h

theorem sessionCounts_ne_nil (data : List Record) (h : data ≠ []) :
    sessionCounts data ≠ [] := by
  intro h0
  apply groupBySession_ne_nil data h
  simpa [sessionCounts] using congrArg List.length h0

theorem medianHundredths_sorted (s : List ℕ) (hne : s ≠ []) :
    ∃ m : ℕ, medianHundredths s = Option.some m ∧
      ((s.length % 2 = 1 ∧ m = s.getD (s.length / 2) 0 * 100) ∨
       (s.length % 2 = 0 ∧
         m = (s.getD (s.length / 2 - 1) 0 + s.getD (s.length / 2) 0) * 50)) := by
  have hpos : 0 < s.length := List.length_pos.mpr hne
  by_cases hpar : s.length % 2 = 0
  · have h2 : 2 ≤ s.length := by omega
    have hm1 : s.length / 2 - 1 < s.length := by omega
    have hm2 : s.length / 2 < s.length := by omega
    have hj1 : jsIdx s (((s.length / 2 : ℕ) : Int) - 1) =
        Option.some (s.getD (s.length / 2 - 1) 0) := by
      unfold jsIdx
      rw [if_neg (by omega)]
      have hto : (((s.length / 2 : ℕ) : Int) - 1).toNat = s.length / 2 - 1 := by
        omega
      rw [hto, List.getD_eq_get? s _ 0, List.get?_eq_get hm1]
      rfl
    have hj2 : jsIdx s ((s.length / 2 : ℕ) : Int) =
        Option.some (s.getD (s.length / 2) 0) := by
      unfold jsIdx
      rw [if_neg (by omega)]
      have hto : (((s.length / 2 : ℕ) : Int)).toNat = s.length / 2 := by
        omega
      rw [hto, List.getD_eq_get? s _ 0, List.get?_eq_get hm2]
      rfl
    refine ⟨(s.getD (s.length / 2 - 1) 0 + s.getD (s.length / 2) 0) * 50,
      ?_, Or.inr ⟨hpar, rfl⟩⟩
    simp only [medianHundredths]
    rw [if_pos hpar, hj1, hj2]
  · have hodd : s.length % 2 = 1 := by omega
    have hm2 : s.length / 2 < s.length := by omega
    have hj2 : jsIdx s ((s.length / 2 : ℕ) : Int) =
        Option.some (s.getD (s.length / 2) 0) := by
      unfold jsIdx
      rw [if_neg (by omega)]
      have hto : (((s.length / 2 : ℕ) : Int)).toNat = s.length / 2 := by
        omega
      rw [hto, List.getD_eq_get? s _ 0, List.get?_eq_get hm2]
      rfl
    refine ⟨s.getD (s.length / 2) 0 * 100, ?_, Or.inl ⟨hodd, rfl⟩⟩
    simp only [medianHundredths]
    rw [if_neg hpar, hj2]

theorem processSessionData_median (data : List Record) :
    (processSessionData data).medianQuestionsPerSession =
      toFixed2h (medianHundredths
        ((sessionCounts data).insertionSort (· ≤ ·))) := by
  have hmm : ((groupBySession data).map (fun g => (g.1, g.2.length))).map
      (fun s => s.2) = sessionCounts data := by
    rw [List.map_map]
    rfl
  show toFixed2h (medianHundredths
      ((((groupBySession data).map (fun g => (g.1, g.2.length))).map
        (fun s => s.2)).insertionSort (· ≤ ·))) =
    toFixed2h (medianHundredths ((sessionCounts data).insertionSort (· ≤ ·)))
  rw [hmm]

/-- Claim C1: for every nonempty input, Session Analysis computes the
median of the per-session question counts on the ascending-sorted count
sequence by the standard even/odd rule (`specMedianQ`) and renders it with
two decimals; count sequences [1,2,3] and [1,2,3,4] yield "2.00" and
"2.50". -/
theorem claim_C1 :
    (∀ data : List Record, data ≠ [] →
      ∃ m : ℕ,
        medianHundredths ((sessionCounts data).insertionSort (· ≤ ·)) =
          Option.some m ∧
        (m : ℚ) = 100 * specMedianQ (sessionCounts data) ∧
        (processSessionData data).medianQuestionsPerSession =
          toFixed2h (Option.some m)) ∧
    (processSessionData exMedianOdd).medianQuestionsPerSession = "2.00" ∧
    (processSessionData exMedianEven).medianQuestionsPerSession = "2.50" ∧
    sessionCounts exMedianOdd = [1, 2, 3] ∧
    sessionCounts exMedianEven = [1, 2, 3, 4] := by
  refine ⟨?_, by decide, by decide, by decide, by decide⟩
  intro data hd
  have hne : sessionCounts data ≠ [] := sessionCounts_ne_nil data hd
  have hsne : (sessionCounts data).insertionSort (· ≤ ·) ≠ [] := by
    intro h0
    apply hne
    have := congrArg List.length h0
    rw [(List.perm_insertionSort _ _).length_eq] at this
    exact List.length_eq_zero.mp this
  obtain ⟨m, hm, hcases⟩ := medianHundredths_sorted _ hsne
  refine ⟨m, hm, ?_, ?_⟩
  · simp only [specMedianQ]
    rw [← insertionSort_eq_mergeSort_nat]
    rcases hcases with ⟨hodd, rfl⟩ | ⟨heven, rfl⟩
    · rw [if_pos hodd]
      push_cast
      ring
    · rw [if_neg (by omega)]
      push_cast
      ring
  · rw [processSessionData_median, hm]

/-- Witness for C1 at the three-session example. -/
theorem claim_C1_witness :
    ∃ m : ℕ,
      medianHundredths ((sessionCounts exMedianOdd).insertionSort (· ≤ ·)) =
        Option.some m ∧
      (m : ℚ) = 100 * specMedianQ (sessionCounts exMedianOdd) ∧
      (processSessionData exMedianOdd).medianQuestionsPerSession =
        toFixed2h (Option.some m) :=
  claim_C1.1 exMedianOdd (by decide)

/-! ### Claim C2 -/

theorem insCount_ne_nil {α : Type} [DecidableEq α]
    (cs : List (α × ℕ)) (k : α) : insCount cs k ≠ [] := by
  cases cs with
  | nil => simp [insCount]
  | cons p t =>
      obtain ⟨a, n⟩ := p
      simp only [insCount]
      split
      · simp
      · simp

theorem insCount_keys_nodup {α : Type} [DecidableEq α]
    (cs : List (α × ℕ)) (k : α)
    (h : (cs.map (fun p => p.1)).Nodup) :
    ((insCount cs k).map (fun p => p.1)).Nodup := by
  rw [insCount_keys]
  exact nodup_insDedup _ _ h

theorem bumpIntent_keys (pi : List (String × List (String × ℕ)))
    (p i : String) :
    (bumpIntent pi p i).map (fun q => q.1) =
      insDedup (pi.map (fun q => q.1)) p := by
  induction pi with
  | nil => simp [bumpIntent, insDedup]
  | cons q t ih =>
      obtain ⟨a, cs⟩ := q
      simp only [bumpIntent, insDedup] at *
      by_cases h : a = p
      · subst h
        simp
      · simp only [if_neg h, List.map_cons, ih]
        by_cases hp : p ∈ t.map (fun q => q.1)
        · simp [hp, Ne.symm h]
        · simp [hp, Ne.symm h]

theorem bumpIntent_inner (pi : List (String × List (String × ℕ)))
    (p i : String)
    (h : ∀ q, q ∈ pi → q.2 ≠ [] ∧ (q.2.map (fun c => c.1)).Nodup) :
    ∀ q, q ∈ bumpIntent pi p i →
      q.2 ≠ [] ∧ (q.2.map (fun c => c.1)).Nodup := by
  induction pi with
  | nil =>
      intro q hq
      simp [bumpIntent] at hq
      subst hq
      simp
  | cons w t ih =>
      obtain ⟨a, cs⟩ := w
      intro q hq
      simp only [bumpIntent] at hq
      by_cases hk : a = p
      · rw [if_pos hk] at hq
        rcases List.mem_cons.mp hq with hqe | hqt
        · subst hqe
          have hw := h (a, cs) (List.mem_cons_self _ _)
          exact ⟨insCount_ne_nil _ _, insCount_keys_nodup _ _ hw.2⟩
        · exact h q (List.mem_cons_of_mem _ hqt)
      · rw [if_neg hk] at hq
        rcases List.mem_cons.mp hq with hqe | hqt
        · subst hqe
          exact h (a, cs) (List.mem_cons_self _ _)
        · exact ih (fun w hw => h w (List.mem_cons_of_mem _ hw)) q hqt

theorem crossCounts_inner (data : List Record) :
    ∀ q, q ∈ crossCounts data →
      q.2 ≠ [] ∧ (q.2.map (fun c => c.1)).Nodup := by
  have key : ∀ (l : List Record) (pi : List (String × List (String × ℕ))),
      (∀ q, q ∈ pi → q.2 ≠ [] ∧ (q.2.map (fun c => c.1)).Nodup) →
      ∀ q, q ∈ l.foldl
        (fun pi r =>
          let p := pathForCross r
          if isRealPath p then bumpIntent pi p (intentOf r) else pi) pi →
        q.2 ≠ [] ∧ (q.2.map (fun c => c.1)).Nodup := by
    intro l
    induction l with
    | nil => intro pi h; exact h
    | cons r t ih =>
        intro pi h
        simp only [List.foldl_cons]
        by_cases hr : isRealPath (pathForCross r) = true
        · simp only [hr, if_true]
          exact ih _ (bumpIntent_inner pi _ _ h)
        · simp only [hr, Bool.false_eq_true, if_false]
          exact ih _ h
  exact key data [] (by simp)

theorem validPaths_eq_crossKeys (data : List Record) :
    data.foldl
      (fun vs r =>
        let p := pathForCross r
        if isRealPath p then insDedup vs p else vs) [] =
    (crossCounts data).map (fun q => q.1) := by
  have key : ∀ (l : List Record) (pi : List (String × List (String × ℕ)))
      (vs : List String), vs = pi.map (fun q => q.1) →
      l.foldl
        (fun vs r =>
          let p := pathForCross r
          if isRealPath p then insDedup vs p else vs) vs =
      (l.foldl
        (fun pi r =>
          let p := pathForCross r
          if isRealPath p then bumpIntent pi p (intentOf r) else pi)
        pi).map (fun q => q.1) := by
    intro l
    induction l with
    | nil =>
        intro pi vs h
        simpa using h
    | cons r t ih =>
        intro pi vs h
        simp only [List.foldl_cons]
        by_cases hr : isRealPath (pathForCross r) = true
        · simp only [hr, if_true]
          exact ih _ _ (by rw [h, bumpIntent_keys])
        · simp only [hr, Bool.false_eq_true, if_false]
          exact ih _ _ h
  exact key data [] [] rfl

theorem lookupCounts_mem (pi : List (String × List (String × ℕ)))
    (p : String) (hp : p ∈ pi.map (fun q => q.1)) :
    (p, lookupCounts pi p) ∈ pi := by
  induction pi with
  | nil => simp at hp
  | cons q t ih =>
      obtain ⟨a, cs⟩ := q
      simp only [lookupCounts]
      by_cases h : a = p
      · subst h
        simp
      · rw [if_neg h]
        refine List.mem_cons_of_mem _ (ih ?_)
        simp only [List.map_cons, List.mem_cons] at hp
        rcases hp with hpe | hpt
        · exact absurd hpe.symm h
        · exact hpt

theorem keyfold_eq (cs : List (String × ℕ)) :
    ∀ (t : List (String × ℕ)) (a : String × ℕ),
      (∀ p, p ∈ t → lookupN cs p.1 = p.2) → lookupN cs a.1 = a.2 →
      (t.map (fun p => p.1)).foldl
        (fun x b => if lookupN cs x > lookupN cs b then x else b) a.1 =
      (t.foldl (fun x b => if x.2 > b.2 then x else b) a).1 := by
  intro t
  induction t with
  | nil => intro a _ _; rfl
  | cons q qt ih =>
      intro a ht ha
      have hq : lookupN cs q.1 = q.2 := ht q (List.mem_cons_self _ _)
      have hqt : ∀ p, p ∈ qt → lookupN cs p.1 = p.2 :=
        fun p hp => ht p (List.mem_cons_of_mem _ hp)
      simp only [List.map_cons, List.foldl_cons]
      by_cases hgt : a.2 > q.2
      · rw [if_pos (by rw [ha, hq]; exact hgt), if_pos hgt]
        exact ih a hqt ha
      · rw [if_neg (by rw [ha, hq]; exact hgt), if_neg hgt]
        exact ih q hqt hq

theorem pairfold_lastMax :
    ∀ (t : List (String × ℕ)) (a : String × ℕ),
      ((a :: t).filter (fun b => b.2 = maxVal (a :: t))).getLast? =
        Option.some (t.foldl (fun x b => if x.2 > b.2 then x else b) a) := by
  intro t
  induction t with
  | nil =>
      intro a
      have hm : maxVal [a] = a.2 := by
        simp [maxVal]
      rw [hm]
      simp [List.filter_cons]
  | cons q qt ih =>
      intro a
      by_cases h : a.2 > q.2
      · have hstep : (q :: qt).foldl (fun x b => if x.2 > b.2 then x else b) a =
            qt.foldl (fun x b => if x.2 > b.2 then x else b) a := by
          simp only [List.foldl_cons, if_pos h]
        rw [hstep, ← ih a]
        have hM : maxVal (a :: qt) = maxVal (a :: q :: qt) := by
          simp only [maxVal, List.map_cons, List.foldr_cons]
          omega
        rw [hM]
        have hbound : a.2 ≤ maxVal (a :: q :: qt) := by
          simp only [maxVal, List.map_cons, List.foldr_cons]
          omega
        have hqno : ¬ (q.2 = maxVal (a :: q :: qt)) := by omega
        have hfil : (a :: q :: qt).filter
              (fun b => decide (b.2 = maxVal (a :: q :: qt))) =
            (a :: qt).filter
              (fun b => decide (b.2 = maxVal (a :: q :: qt))) := by
          simp only [List.filter_cons]
          rw [show decide (q.2 = maxVal (a :: q :: qt)) = false from by
            simpa using hqno]
          simp only [Bool.false_eq_true, if_false]
        rw [hfil]
      · have hstep : (q :: qt).foldl (fun x b => if x.2 > b.2 then x else b) a =
            qt.foldl (fun x b => if x.2 > b.2 then x else b) q := by
          simp only [List.foldl_cons, if_neg h]
        rw [hstep, ← ih q]
        have hM : maxVal (q :: qt) = maxVal (a :: q :: qt) := by
          simp only [maxVal, List.map_cons, List.foldr_cons]
          omega
        rw [hM]
        by_cases hA : a.2 = maxVal (a :: q :: qt)
        · have hqle : q.2 ≤ maxVal (a :: q :: qt) := by
            simp only [maxVal, List.map_cons, List.foldr_cons]
            omega
          have hqM : q.2 = maxVal (a :: q :: qt) := by omega
          rw [show (a :: q :: qt).filter
                (fun b => decide (b.2 = maxVal (a :: q :: qt))) =
              a :: q :: qt.filter
                (fun b => decide (b.2 = maxVal (a :: q :: qt))) from by
            simp [List.filter_cons, hA, hqM]]
          rw [show (q :: qt).filter
                (fun b => decide (b.2 = maxVal (a :: q :: qt))) =
              q :: qt.filter
                (fun b => decide (b.2 = maxVal (a :: q :: qt))) from by
            simp [List.filter_cons, hqM]]
          exact List.getLast?_cons_cons
        · have hfil : (a :: q :: qt).filter
              (fun b => decide (b.2 = maxVal (a :: q :: qt))) =
              (q :: qt).filter
                (fun b => decide (b.2 = maxVal (a :: q :: qt))) := by
            simp only [List.filter_cons]
            rw [show decide (a.2 = maxVal (a :: q :: qt)) = false from by
              simpa using hA]
            simp only [Bool.false_eq_true, if_false]
          rw [hfil]

theorem jsReduceArgmax_eq_lastMax (cs : List (String × ℕ)) (hne : cs ≠ [])
    (hn : (cs.map (fun p => p.1)).Nodup) :
    jsReduceArgmax cs = lastMaxKey cs := by
  obtain ⟨c0, ct, rfl⟩ := List.exists_cons_of_ne_nil hne
  have hct : ∀ p, p ∈ ct → lookupN (c0 :: ct) p.1 = p.2 :=
    fun p hp => lookupN_eq_of_mem hn (List.mem_cons_of_mem _ hp)
  have hc0 : lookupN (c0 :: ct) c0.1 = c0.2 :=
    lookupN_eq_of_mem hn (List.mem_cons_self _ _)
  unfold jsReduceArgmax lastMaxKey
  simp only [List.map_cons]
  rw [keyfold_eq (c0 :: ct) ct c0 hct hc0, pairfold_lastMax ct c0]
  rfl

theorem lastMaxKey_count (cs : List (String × ℕ))
    (hn : (cs.map (fun p => p.1)).Nodup) (k : String)
    (h : lastMaxKey cs = Option.some k) : lookupN cs k = maxVal cs := by
  unfold lastMaxKey at h
  rw [Option.map_eq_some'] at h
  obtain ⟨q, hq, rfl⟩ := h
  have hqmem : q ∈ cs.filter (fun b => b.2 = maxVal cs) := by
    obtain ⟨hne2, heq⟩ :=
      List.mem_getLast?_eq_getLast
        (l := cs.filter (fun b => b.2 = maxVal cs)) (x := q) (by simp [hq])
    rw [heq]
    exact List.getLast_mem hne2
  have hsplit := List.mem_filter.mp hqmem
  have hv : q.2 = maxVal cs := by simpa using hsplit.2
  rw [lookupN_eq_of_mem hn hsplit.1, hv]

/-- Claim C2 (amended): for every learning path row of the crosstab, the
reported dominant intent is an intent of maximum count for that path, and
on ties the source's `reduce` picks the LAST intent (in the mapping's
insertion/enumeration order) attaining the maximum — still deterministic
for a fixed input ordering. -/
theorem claim_C2_amended (data : List Record) :
    ∀ row, row ∈ processPathIntentData data →
      lastMaxKey (lookupCounts (crossCounts data) row.path) =
        Option.some row.dominantIntent ∧
      lookupN (lookupCounts (crossCounts data) row.path) row.dominantIntent =
        maxVal (lookupCounts (crossCounts data) row.path) := by
  intro row hrow
  simp only [processPathIntentData] at hrow
  have hrow2 := ((List.perm_insertionSort _ _).mem_iff).mp hrow
  obtain ⟨p, hp, hroweq⟩ := List.mem_map.mp hrow2
  subst hroweq
  rw [validPaths_eq_crossKeys data] at hp
  have hmem := lookupCounts_mem (crossCounts data) p hp
  have hinner := crossCounts_inner data _ hmem
  have hne : lookupCounts (crossCounts data) p ≠ [] := hinner.1
  have hnodup : ((lookupCounts (crossCounts data) p).map
      (fun c => c.1)).Nodup := hinner.2
  have hred := jsReduceArgmax_eq_lastMax _ hne hnodup
  have hsome : ∃ k, jsReduceArgmax (lookupCounts (crossCounts data) p) =
      Option.some k := by
    obtain ⟨c0, ct, hcs⟩ := List.exists_cons_of_ne_nil hne
    rw [hcs]
    exact ⟨_, rfl⟩
  obtain ⟨k, hk⟩ := hsome
  constructor
  · show lastMaxKey (lookupCounts (crossCounts data) p) =
      Option.some ((jsReduceArgmax (lookupCounts (crossCounts data) p)).getD "")
    rw [← hred, hk]
    rfl
  · show lookupN (lookupCounts (crossCounts data) p)
        ((jsReduceArgmax (lookupCounts (crossCounts data) p)).getD "") =
      maxVal (lookupCounts (crossCounts data) p)
    rw [hk]
    apply lastMaxKey_count _ hnodup
    rw [← hred, hk]
    rfl

/-- Witness for the amended C2 at the tied two-intent example: the row for
path "P" carries dominant intent "y", the last intent with the maximum
count. -/
theorem claim_C2_amended_witness :
    lastMaxKey (lookupCounts (crossCounts exCross)
        ({ path := "P", total := 2, dominantIntent := "y",
           dominantIntentCount := 1,
           dominantIntentPercentage := "50.0" } : PathIntentRow).path) =
      Option.some
        ({ path := "P", total := 2, dominantIntent := "y",
           dominantIntentCount := 1,
           dominantIntentPercentage := "50.0" } : PathIntentRow).dominantIntent ∧
    lookupN (lookupCounts (crossCounts exCross)
        ({ path := "P", total := 2, dominantIntent := "y",
           dominantIntentCount := 1,
           dominantIntentPercentage := "50.0" } : PathIntentRow).path)
        ({ path := "P", total := 2, dominantIntent := "y",
           dominantIntentCount := 1,
           dominantIntentPercentage := "50.0" } : PathIntentRow).dominantIntent =
      maxVal (lookupCounts (crossCounts exCross)
        ({ path := "P", total := 2, dominantIntent := "y",
           dominantIntentCount := 1,
           dominantIntentPercentage := "50.0" } : PathIntentRow).path) :=
  claim_C2_amended exCross _ (by decide)

/-- Counterexample to C2 as stated: on path "P" the intents "x" and "y"
are tied with count 1; the first intent encountered with the maximum is
"x", yet the source reports dominant intent "y" (the `reduce` with strict
`>` keeps the later key on ties). -/
theorem claim_C2_counterexample :
    firstMaxKey (lookupCounts (crossCounts exCross) "P") = Option.some "x" ∧
    (processPathIntentData exCross).map (fun row => row.dominantIntent) =
      ["y"] ∧
    ¬ ((processPathIntentData exCross).map (fun row => row.dominantIntent) =
      ["x"]) := by
  decide

/-! ### Claim C7 -/

theorem pickExample_no_match (data : List Record) (pred : Record → Bool)
    (r : ℕ) (h : data.filter pred = []) :
    pickExample data pred r = Option.none := by
  simp [pickExample, h]

theorem pickExample_fallback (data : List Record) (pred : Record → Bool)
    (r : ℕ) (hne : data.filter pred ≠ [])
    (hval : (data.filter pred).filter
        (fun q => strTruthy q.question ∧ (q.question.getD "").length > 10) =
      []) :
    pickExample data pred r = Option.some "No example available" := by
  have hlen : 0 < (data.filter pred).length := List.length_pos.mpr hne
  simp only [pickExample]
  rw [if_pos hlen, hval]
  simp

/-- Claim C7 (amended): for each of the six fixed categories, when at
least one record matches the category but none has a question longer than
10 characters, Example Selection outputs the fixed fallback string; when
no record matches the category at all, the entry is left absent
(`Option.none`), not the fallback string.  No error is raised in either
case. -/
theorem claim_C7_amended (data : List Record) (r1 r2 r3 r4 r5 r6 : ℕ) :
    ((data.filter (fun q => q.user_intent = Option.some "problem_solving") = [] →
        (getExampleQuestions data r1 r2 r3 r4 r5 r6).problem_solving =
          Option.none) ∧
     (data.filter (fun q => q.user_intent = Option.some "problem_solving") ≠ [] →
      (data.filter (fun q => q.user_intent = Option.some "problem_solving")).filter
          (fun q => strTruthy q.question ∧ (q.question.getD "").length > 10) =
        [] →
        (getExampleQuestions data r1 r2 r3 r4 r5 r6).problem_solving =
          Option.some "No example available")) ∧
    ((data.filter (fun q => q.user_intent = Option.some "knowledge_seeking") = [] →
        (getExampleQuestions data r1 r2 r3 r4 r5 r6).knowledge_seeking =
          Option.none) ∧
     (data.filter (fun q => q.user_intent = Option.some "knowledge_seeking") ≠ [] →
      (data.filter (fun q => q.user_intent = Option.some "knowledge_seeking")).filter
          (fun q => strTruthy q.question ∧ (q.question.getD "").length > 10) =
        [] →
        (getExampleQuestions data r1 r2 r3 r4 r5 r6).knowledge_seeking =
          Option.some "No example available")) ∧
    ((data.filter (fun q => q.user_intent = Option.some "decision_making") = [] →
        (getExampleQuestions data r1 r2 r3 r4 r5 r6).decision_making =
          Option.none) ∧
     (data.filter (fun q => q.user_intent = Option.some "decision_making") ≠ [] →
      (data.filter (fun q => q.user_intent = Option.some "decision_making")).filter
          (fun q => strTruthy q.question ∧ (q.question.getD "").length > 10) =
        [] →
        (getExampleQuestions data r1 r2 r3 r4 r5 r6).decision_making =
          Option.some "No example available")) ∧
    ((data.filter (fun q => q.question_complexity = Option.some "beginner") = [] →
        (getExampleQuestions data r1 r2 r3 r4 r5 r6).beginner =
          Option.none) ∧
     (data.filter (fun q => q.question_complexity = Option.some "beginner") ≠ [] →
      (data.filter (fun q => q.question_complexity = Option.some "beginner")).filter
          (fun q => strTruthy q.question ∧ (q.question.getD "").length > 10) =
        [] →
        (getExampleQuestions data r1 r2 r3 r4 r5 r6).beginner =
          Option.some "No example available")) ∧
    ((data.filter (fun q => q.question_complexity = Option.some "intermediate") = [] →
        (getExampleQuestions data r1 r2 r3 r4 r5 r6).intermediate =
          Option.none) ∧
     (data.filter (fun q => q.question_complexity = Option.some "intermediate") ≠ [] →
      (data.filter (fun q => q.question_complexity = Option.some "intermediate")).filter
          (fun q => strTruthy q.question ∧ (q.question.getD "").length > 10) =
        [] →
        (getExampleQuestions data r1 r2 r3 r4 r5 r6).intermediate =
          Option.some "No example available")) ∧
    ((data.filter (fun q => q.question_complexity = Option.some "advanced") = [] →
        (getExampleQuestions data r1 r2 r3 r4 r5 r6).advanced =
          Option.none) ∧
     (data.filter (fun q => q.question_complexity = Option.some "advanced") ≠ [] →
      (data.filter (fun q => q.question_complexity = Option.some "advanced")).filter
          (fun q => strTruthy q.question ∧ (q.question.getD "").length > 10) =
        [] →
        (getExampleQuestions data r1 r2 r3 r4 r5 r6).advanced =
          Option.some "No example available")) :=
  ⟨⟨fun h => pickExample_no_match data _ r1 h,
    fun hne hval => pickExample_fallback data _ r1 hne hval⟩,
   ⟨fun h => pickExample_no_match data _ r2 h,
    fun hne hval => pickExample_fallback data _ r2 hne hval⟩,
   ⟨fun h => pickExample_no_match data _ r3 h,
    fun hne hval => pickExample_fallback data _ r3 hne hval⟩,
   ⟨fun h => pickExample_no_match data _ r4 h,
    fun hne hval => pickExample_fallback data _ r4 hne hval⟩,
   ⟨fun h => pickExample_no_match data _ r5 h,
    fun hne hval => pickExample_fallback data _ r5 hne hval⟩,
   ⟨fun h => pickExample_no_match data _ r6 h,
    fun hne hval => pickExample_fallback data _ r6 hne hval⟩⟩

/-- Witness for the amended C7: on the one-record input whose only record
matches "problem_solving" with a 5-character question, the
problem-solving entry is the fallback string and the knowledge-seeking
entry is absent. -/
theorem claim_C7_amended_witness :
    (getExampleQuestions exShortQ 0 0 0 0 0 0).problem_solving =
      Option.some "No example available" ∧
    (getExampleQuestions exShortQ 0 0 0 0 0 0).knowledge_seeking =
      Option.none :=
  ⟨(claim_C7_amended exShortQ 0 0 0 0 0 0).1.2 (by decide) (by decide),
   (claim_C7_amended exShortQ 0 0 0 0 0 0).2.1.1 (by decide)⟩

/-- Counterexample to C7 as stated: for the category "knowledge_seeking"
zero records qualify (none even match the category), yet the entry is left
absent (`Option.none`), not the fixed fallback string. -/
theorem claim_C7_counterexample :
    ((exShortQ.filter
        (fun q => q.user_intent = Option.some "knowledge_seeking")).filter
        (fun q => strTruthy q.question ∧ (q.question.getD "").length > 10)).length
      = 0 ∧
    (getExampleQuestions exShortQ 0 0 0 0 0 0).knowledge_seeking =
      Option.none ∧
    ¬ ((getExampleQuestions exShortQ 0 0 0 0 0 0).knowledge_seeking =
      Option.some "No example available") := by
  decide

/-! ### Claim C8 -/

/-- Counterexample to C8 as stated: the empty string is a falsy-looking
value other than the two literals, but it does NOT fall through as a real
path name: both normalizations coerce it to the sentinel "none", and both
learning-path reports exclude the record entirely. -/
theorem claim_C8_counterexample :
    pathForDist { sampleRec "a" with learning_path := Option.some "" } =
      "none" ∧
    pathForCross { sampleRec "a" with learning_path := Option.some "" } =
      "none" ∧
    processLearningPathData exEmptyPath = [] ∧
    processPathIntentData exEmptyPath = [] := by
  decide

/-- Claim C8 (amended): the sentinel comparison matches only the two
literal strings "none" and "null", case-sensitively, on the (trimmed)
truthy value: any non-empty trim-fixed string other than those two
literals — e.g. the case variant "None" — is treated as a real path name
in Learning Path Distribution and the Path × Intent crosstab; the empty
string, however, is falsy and is first coerced to the sentinel "none",
so it is excluded rather than treated as a path name. -/
theorem claim_C8_amended :
    (∀ s : String, jsTrim s = s → s ≠ "" → s ≠ "none" → s ≠ "null" →
      ∀ r : Record, r.learning_path = Option.some s →
        processLearningPathData [r] =
          [{ name := s, value := 1,
             percentage := toFixed1t (Option.some (pctTenths 1 1)) }] ∧
        (processPathIntentData [r]).map (fun row => row.path) = [s]) ∧
    (∀ r : Record, r.learning_path = Option.some "" →
      processLearningPathData [r] = [] ∧ processPathIntentData [r] = []) ∧
    processLearningPathData exCasePath =
      [{ name := "None", value := 1, percentage := "100.0" }] := by
  refine ⟨?_, ?_, by decide⟩
  · intro s htrim hne hnone hnull r hr
    have hpd : pathForDist r = s := by
      simp [pathForDist, hr, hne]
    have hpc : pathForCross r = s := by
      simp [pathForCross, hr, hne, htrim]
    have hreal : isRealPath s = true := by
      simp [isRealPath, hnone, hnull]
    constructor
    · simp [processLearningPathData, hpd, hreal, insCount,
        List.insertionSort, List.orderedInsert]
    · simp [processPathIntentData, hpc, hreal, bumpIntent, insDedup,
        List.insertionSort, List.orderedInsert]
  · intro r hr
    have hpd : pathForDist r = "none" := by
      simp [pathForDist, hr]
    have hpc : pathForCross r = "none" := by
      simp [pathForCross, hr]
    constructor
    · simp [processLearningPathData, hpd, isRealPath]
    · simp [processPathIntentData, hpc, isRealPath]

/-- Witness for the amended C8 at the case-variant path "None" and at the
empty-string path. -/
theorem claim_C8_amended_witness :
    (processLearningPathData
        [{ sampleRec "a" with learning_path := Option.some "None" }] =
      [{ name := "None", value := 1,
         percentage := toFixed1t (Option.some (pctTenths 1 1)) }] ∧
      (processPathIntentData
        [{ sampleRec "a" with learning_path := Option.some "None" }]).map
          (fun row => row.path) = ["None"]) ∧
    (processLearningPathData
        [{ sampleRec "a" with learning_path := Option.some "" }] = [] ∧
      processPathIntentData
        [{ sampleRec "a" with learning_path := Option.some "" }] = []) :=
  ⟨claim_C8_amended.1 "None" (by decide) (by decide) (by decide) (by decide)
      _ rfl,
   claim_C8_amended.2.1 _ rfl⟩

end Dashboard
